import Mathlib

/-!
# Verification of the PerlinNoise core (src/main.js)

Shallow embedding of the `PerlinNoise` class. JavaScript numbers are
modelled by `ℚ` (exact arithmetic; IEEE-754 rounding is not modelled) and
JavaScript arrays by maps `ℤ → Option α`: a read of a key that was never
written yields `none` (JavaScript `undefined`), and a write at any integer
key (including a negative one) is stored.  This is needed because the
Fisher-Yates loop in `seed` can compute a negative pick index `r` for
negative seeds, and the source then reads and writes `p[r]` out of bounds.
-/

namespace Perlin

/-- The eight gradient vectors `grad3` from the source (four diagonal and
four axis-aligned directions). -/
def grad3 : List (ℤ × ℤ) :=
  [(1, 1), (-1, 1), (1, -1), (-1, -1), (1, 0), (-1, 0), (0, 1), (0, -1)]

/-- JavaScript `ToInt32`: reduce modulo 2^32 into the signed range
[-2^31, 2^31). The source only applies bitwise operators to integral
values, so the model takes an integer. -/
def toInt32 (n : ℤ) : ℤ :=
  let m := n % 4294967296
  if m < 2147483648 then m else m - 4294967296

/-- The unsigned-32-bit representative of an integer, used to compute
bitwise operations the way JavaScript does. -/
def toUInt32 (n : ℤ) : ℕ :=
  (n % 4294967296).toNat

/-- JavaScript `a | b` on integral values: both operands are converted to
32 bits, or-ed bitwise, and the result is read back as a signed 32-bit
integer. -/
def jsOr (a b : ℤ) : ℤ :=
  toInt32 ((toUInt32 a ||| toUInt32 b : ℕ) : ℤ)

/-- JavaScript `a << 8` on an integral value: shift the 32-bit pattern of
`a` left by 8, reading the result as a signed 32-bit integer. -/
def jsShl8 (a : ℤ) : ℤ :=
  toInt32 (toInt32 a * 256)

/-- The seed preprocessing at the top of `PerlinNoise.seed`:
seeds strictly between 0 and 1 are scaled by 65536, the value is floored,
and values below 256 are folded by `seed |= seed << 8`. -/
def preprocessSeed (v : ℚ) : ℤ :=
  let v1 := if 0 < v ∧ v < 1 then v * 65536 else v
  let s := Int.floor v1
  if s < 256 then jsOr s (jsShl8 s) else s

/-- The local array `p` right after the initialisation loop: `p[i] = i`
for `0 ≤ i < 256`, every other key undefined. -/
def initP : ℤ → Option ℤ :=
  fun j => if 0 ≤ j ∧ j < 256 then some j else none

/-- The pick index `r = Math.floor((seed / 2147483647) * (i + 1))` of one
Fisher-Yates iteration. -/
def pickIndex (s i : ℤ) : ℤ :=
  Int.floor (((s : ℚ) / 2147483647) * ((i : ℚ) + 1))

/-- One iteration of the Fisher-Yates loop in `seed`, at loop index `i`:
advance the LCG with JavaScript `%` (truncated remainder `Int.tmod`),
compute the pick index, and perform the two element assignments of the
swap (`temp = p[i]; p[i] = p[r]; p[r] = temp`). -/
def shuffleStep (sp : ℤ × (ℤ → Option ℤ)) (i : ℤ) : ℤ × (ℤ → Option ℤ) :=
  let s := (sp.1 * 16807).tmod 2147483647
  let r := pickIndex s i
  let p := sp.2
  let temp := p i
  let p1 := Function.update p i (p r)
  let p2 := Function.update p1 r temp
  (s, p2)

/-- The loop indices `i = 255, 254, ..., 1` of the Fisher-Yates loop. -/
def downIdx : List ℤ :=
  (List.range 255).map (fun k => (255 : ℤ) - (k : ℕ))

/-- The whole Fisher-Yates loop of `seed`, starting from the preprocessed
seed and the identity array. -/
def shuffle (s0 : ℤ) : ℤ × (ℤ → Option ℤ) :=
  downIdx.foldl shuffleStep (s0, initP)

/-- The state of a `PerlinNoise` object: the 512-slot permutation table
`this.perm` and gradient table `this.gradP`, as key-value maps. -/
structure PerlinState where
  perm : ℤ → Option ℤ
  gradP : ℤ → Option (ℤ × ℤ)

/-- The tables produced by `PerlinNoise.seed(v)`: the final loop writes
`this.perm[i] = this.perm[i + 256] = p[i]` and
`this.gradP[i] = this.gradP[i + 256] = this.grad3[p[i] % 8]` for
`0 ≤ i < 256`.  When `p[i]` is undefined, `p[i] % 8` is `NaN` and
`grad3[NaN]` is undefined, so the gradient entry is `none`. -/
def seedTables (v : ℚ) : PerlinState :=
  let p := (shuffle (preprocessSeed v)).2
  { perm := fun j =>
      if 0 ≤ j ∧ j < 256 then p j
      else if 256 ≤ j ∧ j < 512 then p (j - 256)
      else none
    gradP := fun j =>
      if 0 ≤ j ∧ j < 256 then (p j).bind (fun k => grad3.get? (k.tmod 8).toNat)
      else if 256 ≤ j ∧ j < 512 then (p (j - 256)).bind (fun k => grad3.get? (k.tmod 8).toNat)
      else none }

/-- `PerlinNoise.seed` as a state transformer.  The source rebuilds a
fresh local array `p` and overwrites all 512 slots of both tables, so the
resulting state does not depend on the previous one. -/
def seed (v : ℚ) (_st : PerlinState) : PerlinState :=
  seedTables v

/-- `PerlinNoise.lerp`. -/
def lerp (a b t : ℚ) : ℚ :=
  (1 - t) * a + t * b

/-- `PerlinNoise.fade`, written exactly as in the source:
`t * t * t * (t * (t * 6 - 15) + 10)`. -/
def fade (t : ℚ) : ℚ :=
  t * t * t * (t * (t * 6 - 15) + 10)

/-- Read the permutation table the way `noise2D` does (`this.perm[idx]`).
The indices `noise2D` uses are always in `[0, 512)`; on a table produced
by a nonnegative seed the entry is always present, and `getD 0` only
gives the lookup a total type. -/
def permAt (st : PerlinState) (i : ℤ) : ℤ :=
  (st.perm i).getD 0

/-- `PerlinNoise.grad`: select `gradP[hash & 255]` and return the dot
product of that gradient with `(x, y)`.  For an integral `hash`, the
JavaScript `hash & 255` equals `hash` modulo 256 (nonnegative remainder),
because `ToInt32` reduces modulo 2^32 and 256 divides 2^32. -/
def grad (st : PerlinState) (hash : ℤ) (x y : ℚ) : ℚ :=
  let g := (st.gradP (hash % 256)).getD (0, 0)
  (g.1 : ℚ) * x + (g.2 : ℚ) * y

/-- `PerlinNoise.noise2D`.  `Math.floor(x) & 255` equals `⌊x⌋` modulo 256
for the same reason as in `grad`. -/
def noise2D (st : PerlinState) (x y : ℚ) : ℚ :=
  let X := Int.floor x % 256
  let Y := Int.floor y % 256
  let xf := x - (Int.floor x : ℚ)
  let yf := y - (Int.floor y : ℚ)
  let u := fade xf
  let v := fade yf
  let aa := permAt st X + Y
  let ab := permAt st X + Y + 1
  let ba := permAt st (X + 1) + Y
  let bb := permAt st (X + 1) + Y + 1
  let g00 := grad st (permAt st aa) xf yf
  let g01 := grad st (permAt st ab) xf (yf - 1)
  let g10 := grad st (permAt st ba) (xf - 1) yf
  let g11 := grad st (permAt st bb) (xf - 1) (yf - 1)
  let nx0 := lerp g00 g01 v
  let nx1 := lerp g10 g11 v
  lerp nx0 nx1 u

/-- `PerlinNoise.noise2D` with JavaScript's error behaviour made
explicit: `none` models the TypeError the source throws when a corner's
`this.gradP[hash & 255]` entry is undefined and `g[0]` is accessed
(possible only on the corrupted tables negative seeds produce).  The
corner index `this.perm[X] + Y` is `NaN` when `this.perm[X]` is
undefined, and `this.perm[NaN]` reads a never-written key (`none`);
`hash & 255` for an undefined hash is 0 because `ToInt32(NaN) = 0`.  The
four corners are evaluated in the source's order, each aborting the
computation if its gradient is undefined.  On a well-formed state this
agrees with `noise2D` (`noise2DChecked_eq_some`). -/
def noise2DChecked (st : PerlinState) (x y : ℚ) : Option ℚ :=
  let X := Int.floor x % 256
  let Y := Int.floor y % 256
  let xf := x - (Int.floor x : ℚ)
  let yf := y - (Int.floor y : ℚ)
  let u := fade xf
  let v := fade yf
  let aa := (st.perm X).map (fun t => t + Y)
  let ab := (st.perm X).map (fun t => t + Y + 1)
  let ba := (st.perm (X + 1)).map (fun t => t + Y)
  let bb := (st.perm (X + 1)).map (fun t => t + Y + 1)
  (st.gradP (((aa.bind st.perm).getD 0) % 256)).bind (fun g00 =>
  (st.gradP (((ab.bind st.perm).getD 0) % 256)).bind (fun g01 =>
  (st.gradP (((ba.bind st.perm).getD 0) % 256)).bind (fun g10 =>
  (st.gradP (((bb.bind st.perm).getD 0) % 256)).bind (fun g11 =>
    some (lerp (lerp ((g00.1 : ℚ) * xf + (g00.2 : ℚ) * yf)
                     ((g01.1 : ℚ) * xf + (g01.2 : ℚ) * (yf - 1)) v)
               (lerp ((g10.1 : ℚ) * (xf - 1) + (g10.2 : ℚ) * yf)
                     ((g11.1 : ℚ) * (xf - 1) + (g11.2 : ℚ) * (yf - 1)) v) u)))))

/-- One iteration of the octave loop of `PerlinNoise.perlin2D`, acting on
the tuple (total, frequency, amplitude, maxValue), in the source's update
order. -/
def octaveStep (st : PerlinState) (x y pers lac : ℚ) (acc : ℚ × ℚ × ℚ × ℚ) :
    ℚ × ℚ × ℚ × ℚ :=
  (acc.1 + noise2D st (x * acc.2.1) (y * acc.2.1) * acc.2.2.1,
   acc.2.1 * lac,
   acc.2.2.1 * pers,
   acc.2.2.2 + acc.2.2.1)

/-- The octave loop of `perlin2D` after `n` iterations, starting from
total = 0, frequency = 1, amplitude = 1, maxValue = 0. -/
def octaveIter (st : PerlinState) (x y pers lac : ℚ) : ℕ → ℚ × ℚ × ℚ × ℚ
  | 0 => (0, 1, 1, 0)
  | n + 1 => octaveStep st x y pers lac (octaveIter st x y pers lac n)

/-- `PerlinNoise.perlin2D`: run the octave loop and return
`total / maxValue`.  (In `ℚ` a division by 0 yields 0; JavaScript yields
`NaN` there, which is outside this model.) -/
def perlin2D (st : PerlinState) (x y : ℚ) (octaves : ℕ) (pers lac : ℚ) : ℚ :=
  let acc := octaveIter st x y pers lac octaves
  acc.1 / acc.2.2.2

/-- A well-formed table state, as produced by `seed` for a nonnegative
seed: all 512 permutation entries are present and in [0, 255], the two
halves coincide, and the gradient table is derived from the permutation
table exactly as the final loop of `seed` does. -/
structure Valid (st : PerlinState) : Prop where
  perm_mem : ∀ i : ℤ, 0 ≤ i → i < 512 → ∃ k, st.perm i = some k ∧ 0 ≤ k ∧ k < 256
  dup : ∀ i : ℤ, 0 ≤ i → i < 256 → st.perm (i + 256) = st.perm i
  grad_rel : ∀ i : ℤ, 0 ≤ i → i < 512 →
    st.gradP i = (st.perm i).bind (fun k => grad3.get? (k.tmod 8).toNat)

/-- The local array `p` of `seed` is a permutation table: keys outside
[0, 256) are unset, keys inside hold pairwise distinct values covering
0..255. -/
structure PermMap (p : ℤ → Option ℤ) : Prop where
  outside : ∀ j : ℤ, j < 0 ∨ 256 ≤ j → p j = none
  entry : ∀ j : ℤ, 0 ≤ j → j < 256 → ∃ k, p j = some k ∧ 0 ≤ k ∧ k < 256
  inj : ∀ j1 j2 k : ℤ, p j1 = some k → p j2 = some k → j1 = j2
  surj : ∀ k : ℤ, 0 ≤ k → k < 256 → ∃ j, p j = some k

/-! ### Definitions transcribed from the specification text -/

/-- The reference single-octave Perlin definition, transcribed from the
specification text of claim C1: floor-and-mask cell, quintic fade
`6 t^5 - 15 t^4 + 10 t^3`, corner hashes by two composed permutation
lookups, corner gradients dotted against the offset vectors (with 1
subtracted for the far corners), and two nested linear interpolations
with the fade weights. -/
def specNoise2D (st : PerlinState) (x y : ℚ) : ℚ :=
  let X := Int.floor x % 256
  let Y := Int.floor y % 256
  let xf := x - (Int.floor x : ℚ)
  let yf := y - (Int.floor y : ℚ)
  let u := 6 * xf ^ 5 - 15 * xf ^ 4 + 10 * xf ^ 3
  let v := 6 * yf ^ 5 - 15 * yf ^ 4 + 10 * yf ^ 3
  let h00 := permAt st (permAt st X + Y)
  let h01 := permAt st (permAt st X + Y + 1)
  let h10 := permAt st (permAt st (X + 1) + Y)
  let h11 := permAt st (permAt st (X + 1) + Y + 1)
  let g00 := (st.gradP h00).getD (0, 0)
  let g01 := (st.gradP h01).getD (0, 0)
  let g10 := (st.gradP h10).getD (0, 0)
  let g11 := (st.gradP h11).getD (0, 0)
  let n00 := (g00.1 : ℚ) * xf + (g00.2 : ℚ) * yf
  let n01 := (g01.1 : ℚ) * xf + (g01.2 : ℚ) * (yf - 1)
  let n10 := (g10.1 : ℚ) * (xf - 1) + (g10.2 : ℚ) * yf
  let n11 := (g11.1 : ℚ) * (xf - 1) + (g11.2 : ℚ) * (yf - 1)
  (1 - u) * ((1 - v) * n00 + v * n01) + u * ((1 - v) * n10 + v * n11)

/-- The seed preprocessing, transcribed from the specification text of
claim C2 (it is word-for-word the computation the source performs). -/
def specPreprocess (v : ℚ) : ℤ :=
  let v1 := if 0 < v ∧ v < 1 then v * 65536 else v
  let s := Int.floor v1
  if s < 256 then jsOr s (jsShl8 s) else s

/-- One Fisher-Yates iteration as the specification words it:
"seed becomes (seed * 16807) mod 2147483647", with `mod` read as the
mathematical (nonnegative) remainder, then the swap of positions `i` and
`r`. -/
def specShuffleStep (sp : ℤ × (ℤ → Option ℤ)) (i : ℤ) : ℤ × (ℤ → Option ℤ) :=
  let s := (sp.1 * 16807) % 2147483647
  let r := pickIndex s i
  let p := sp.2
  let temp := p i
  let p1 := Function.update p i (p r)
  let p2 := Function.update p1 r temp
  (s, p2)

/-- The whole shuffle as the specification describes it. -/
def specShuffle (s0 : ℤ) : ℤ × (ℤ → Option ℤ) :=
  downIdx.foldl specShuffleStep (s0, initP)

/-- The tables after `seed(v)` as the specification describes them:
the shuffled sequence written into both halves of the 512-slot
permutation table, and the gradient table derived by mapping each
permutation value modulo 8 into the palette. -/
def specSeedTables (v : ℚ) : PerlinState :=
  let p := (specShuffle (specPreprocess v)).2
  { perm := fun j =>
      if 0 ≤ j ∧ j < 256 then p j
      else if 256 ≤ j ∧ j < 512 then p (j - 256)
      else none
    gradP := fun j =>
      if 0 ≤ j ∧ j < 256 then (p j).bind (fun k => grad3.get? (k.tmod 8).toNat)
      else if 256 ≤ j ∧ j < 512 then (p (j - 256)).bind (fun k => grad3.get? (k.tmod 8).toNat)
      else none }

/-! ### Arithmetic facts about the fade curve -/

lemma fade_nonneg {t : ℚ} (h0 : 0 ≤ t) : 0 ≤ fade t := by
  have h1 : 0 ≤ t * (t * 6 - 15) + 10 := by nlinarith [sq_nonneg (4 * t - 5)]
  have h2 : 0 ≤ t * t * t := by positivity
  unfold fade
  exact mul_nonneg h2 h1

lemma fade_le_one {t : ℚ} (h0 : 0 ≤ t) (h1 : t ≤ 1) : fade t ≤ 1 := by
  have key : 1 - fade t = (1 - t) ^ 3 * (6 * t ^ 2 + 3 * t + 1) := by
    unfold fade; ring
  have h2 : 0 ≤ (1 - t) ^ 3 := pow_nonneg (by linarith) 3
  have h3 : 0 ≤ 6 * t ^ 2 + 3 * t + 1 := by nlinarith [sq_nonneg t]
  nlinarith [mul_nonneg h2 h3]

/-- The crucial estimate behind the [-1, 1] range bound: the per-axis
weight `t + fade t * (1 - 2 t)` never exceeds 1/2 on [0, 1]. -/
lemma fade_axis_le_half {t : ℚ} (h0 : 0 ≤ t) (h1 : t ≤ 1) :
    t + fade t * (1 - 2 * t) ≤ 1 / 2 := by
  have key : 1 / 2 - (t + fade t * (1 - 2 * t)) =
      (2 * t - 1) ^ 2 * (6 * (t ^ 2 - t) ^ 2 + 2 * (t * (1 - t)) + 1) / 2 := by
    unfold fade; ring
  have ht : 0 ≤ t * (1 - t) := mul_nonneg h0 (by linarith)
  have hin : 0 ≤ 6 * (t ^ 2 - t) ^ 2 + 2 * (t * (1 - t)) + 1 := by positivity
  nlinarith [mul_nonneg (sq_nonneg (2 * t - 1)) hin]

/-- Convex combinations with weights taken from [0, 1] stay in [-1, 1]. -/
lemma abs_mix_le_one {a b v : ℚ} (ha : |a| ≤ 1) (hb : |b| ≤ 1)
    (h0 : 0 ≤ v) (h1 : v ≤ 1) : |(1 - v) * a + v * b| ≤ 1 := by
  obtain ⟨ha1, ha2⟩ := abs_le.mp ha
  obtain ⟨hb1, hb2⟩ := abs_le.mp hb
  rw [abs_le]
  constructor <;> nlinarith

/-- Bound on one axis contribution of the bilinear interpolation: the near
corner is weighted by `xf`, the far corner by `1 - xf`. -/
lemma axis_contrib_bound {A B xf u : ℚ} (hA : |A| ≤ 1) (hB : |B| ≤ 1)
    (hx0 : 0 ≤ xf) (hx1 : xf ≤ 1) (hu0 : 0 ≤ u) (hu1 : u ≤ 1) :
    |(1 - u) * (A * xf) + u * (B * (xf - 1))| ≤ xf + u * (1 - 2 * xf) := by
  have h1 : |(1 - u) * (A * xf) + u * (B * (xf - 1))| ≤
      |(1 - u) * (A * xf)| + |u * (B * (xf - 1))| := abs_add _ _
  have h2 : |(1 - u) * (A * xf)| = (1 - u) * (|A| * xf) := by
    rw [abs_mul, abs_mul, abs_of_nonneg (by linarith : (0:ℚ) ≤ 1 - u),
      abs_of_nonneg hx0]
  have h3 : |u * (B * (xf - 1))| = u * (|B| * (1 - xf)) := by
    rw [abs_mul, abs_mul, abs_of_nonneg hu0, abs_of_nonpos (by linarith : xf - 1 ≤ 0)]
    ring_nf
  have hA0 : 0 ≤ |A| := abs_nonneg _
  have hB0 : 0 ≤ |B| := abs_nonneg _
  have h4 : (1 - u) * (|A| * xf) ≤ (1 - u) * xf := by
    nlinarith [mul_nonneg (mul_nonneg (by linarith : (0:ℚ) ≤ 1 - u) hx0)
      (by linarith : (0:ℚ) ≤ 1 - |A|)]
  have h5 : u * (|B| * (1 - xf)) ≤ u * (1 - xf) := by
    nlinarith [mul_nonneg (mul_nonneg hu0 (by linarith : (0:ℚ) ≤ 1 - xf))
      (by linarith : (0:ℚ) ≤ 1 - |B|)]
  calc |(1 - u) * (A * xf) + u * (B * (xf - 1))|
      ≤ (1 - u) * (|A| * xf) + u * (|B| * (1 - xf)) := by rw [← h2, ← h3]; exact h1
    _ ≤ (1 - u) * xf + u * (1 - xf) := by linarith
    _ = xf + u * (1 - 2 * xf) := by ring

/-- The full bilinear-interpolation estimate: whenever the eight gradient
components lie in [-1, 1] and the fractional offsets lie in [0, 1), the
interpolated noise value lies in [-1, 1]. -/
lemma bilerp_abs_le_one
    {ax00 ay00 ax01 ay01 ax10 ay10 ax11 ay11 xf yf : ℚ}
    (h00x : |ax00| ≤ 1) (h00y : |ay00| ≤ 1) (h01x : |ax01| ≤ 1) (h01y : |ay01| ≤ 1)
    (h10x : |ax10| ≤ 1) (h10y : |ay10| ≤ 1) (h11x : |ax11| ≤ 1) (h11y : |ay11| ≤ 1)
    (hx0 : 0 ≤ xf) (hx1 : xf ≤ 1) (hy0 : 0 ≤ yf) (hy1 : yf ≤ 1) :
    |lerp (lerp (ax00 * xf + ay00 * yf) (ax01 * xf + ay01 * (yf - 1)) (fade yf))
      (lerp (ax10 * (xf - 1) + ay10 * yf) (ax11 * (xf - 1) + ay11 * (yf - 1)) (fade yf))
      (fade xf)| ≤ 1 := by
  set u := fade xf with hu
  set v := fade yf with hv
  have hu0 : 0 ≤ u := fade_nonneg hx0
  have hu1 : u ≤ 1 := fade_le_one hx0 hx1
  have hv0 : 0 ≤ v := fade_nonneg hy0
  have hv1 : v ≤ 1 := fade_le_one hy0 hy1
  have decomp :
      lerp (lerp (ax00 * xf + ay00 * yf) (ax01 * xf + ay01 * (yf - 1)) v)
        (lerp (ax10 * (xf - 1) + ay10 * yf) (ax11 * (xf - 1) + ay11 * (yf - 1)) v) u =
      ((1 - u) * (((1 - v) * ax00 + v * ax01) * xf)
        + u * (((1 - v) * ax10 + v * ax11) * (xf - 1)))
      + ((1 - v) * (((1 - u) * ay00 + u * ay10) * yf)
        + v * (((1 - u) * ay01 + u * ay11) * (yf - 1))) := by
    unfold lerp; ring
  rw [decomp]
  have hxpart := axis_contrib_bound (abs_mix_le_one h00x h01x hv0 hv1)
    (abs_mix_le_one h10x h11x hv0 hv1) hx0 hx1 hu0 hu1
  have hypart := axis_contrib_bound (abs_mix_le_one h00y h10y hu0 hu1)
    (abs_mix_le_one h01y h11y hu0 hu1) hy0 hy1 hv0 hv1
  have hxhalf := fade_axis_le_half hx0 hx1
  have hyhalf := fade_axis_le_half hy0 hy1
  calc |((1 - u) * (((1 - v) * ax00 + v * ax01) * xf)
        + u * (((1 - v) * ax10 + v * ax11) * (xf - 1)))
      + ((1 - v) * (((1 - u) * ay00 + u * ay10) * yf)
        + v * (((1 - u) * ay01 + u * ay11) * (yf - 1)))|
      ≤ |(1 - u) * (((1 - v) * ax00 + v * ax01) * xf)
        + u * (((1 - v) * ax10 + v * ax11) * (xf - 1))|
      + |(1 - v) * (((1 - u) * ay00 + u * ay10) * yf)
        + v * (((1 - u) * ay01 + u * ay11) * (yf - 1))| := abs_add _ _
    _ ≤ (xf + u * (1 - 2 * xf)) + (yf + v * (1 - 2 * yf)) := by linarith
    _ ≤ 1 / 2 + 1 / 2 := by rw [hu, hv]; linarith
    _ = 1 := by norm_num

/-! ### Well-formed table states -/

/-- Every vector of the palette has both components in [-1, 1]. -/
lemma grad3_abs_le : ∀ g ∈ grad3, |g.1| ≤ 1 ∧ |g.2| ≤ 1 := by decide

lemma valid_permAt {st : PerlinState} (h : Valid st) {i : ℤ}
    (h0 : 0 ≤ i) (h1 : i < 512) : 0 ≤ permAt st i ∧ permAt st i < 256 := by
  obtain ⟨k, hk, hk0, hk1⟩ := h.perm_mem i h0 h1
  unfold permAt
  rw [hk, Option.getD_some]
  exact ⟨hk0, hk1⟩

/-- On a well-formed state, the gradient selected by any hash is a
palette vector; in particular its components lie in [-1, 1]. -/
lemma valid_gradPair {st : PerlinState} (h : Valid st) (hash : ℤ) :
    ∃ g : ℤ × ℤ, (st.gradP (hash % 256)).getD (0, 0) = g ∧
      |(g.1 : ℚ)| ≤ 1 ∧ |(g.2 : ℚ)| ≤ 1 := by
  have h0 : 0 ≤ hash % 256 := Int.emod_nonneg hash (by norm_num)
  have h1 : hash % 256 < 512 :=
    lt_trans (Int.emod_lt_of_pos hash (by norm_num)) (by norm_num)
  obtain ⟨k, hk, hk0, hk1⟩ := h.perm_mem _ h0 h1
  have hg := h.grad_rel _ h0 h1
  rw [hk, Option.some_bind] at hg
  have hmod0 : 0 ≤ k.tmod 8 := Int.tmod_nonneg 8 hk0
  have hmod1 : k.tmod 8 < 8 := Int.tmod_lt_of_pos k (by norm_num)
  have hidx : (k.tmod 8).toNat < grad3.length := by
    have : grad3.length = 8 := by decide
    omega
  obtain ⟨g, hget⟩ : ∃ g, grad3.get? (k.tmod 8).toNat = some g :=
    ⟨grad3.get ⟨_, hidx⟩, List.get?_eq_get hidx⟩
  have hmem : g ∈ grad3 := List.get?_mem hget
  obtain ⟨b1, b2⟩ := grad3_abs_le g hmem
  refine ⟨g, ?_, ?_, ?_⟩
  · rw [hg, hget, Option.getD_some]
  · exact_mod_cast b1
  · exact_mod_cast b2

/-- On a well-formed state, the gradient entry selected by any hash is
present (so the source's `g[0]` access cannot throw). -/
lemma valid_gradP_some {st : PerlinState} (h : Valid st) (hash : ℤ) :
    ∃ g, st.gradP (hash % 256) = some g := by
  have h0 : 0 ≤ hash % 256 := Int.emod_nonneg hash (by norm_num)
  have h1 : hash % 256 < 512 :=
    lt_trans (Int.emod_lt_of_pos hash (by norm_num)) (by norm_num)
  obtain ⟨k, hk, hk0, hk1⟩ := h.perm_mem _ h0 h1
  have hg := h.grad_rel _ h0 h1
  rw [hk, Option.some_bind] at hg
  have hmod0 : 0 ≤ k.tmod 8 := Int.tmod_nonneg 8 hk0
  have hmod1 : k.tmod 8 < 8 := Int.tmod_lt_of_pos k (by norm_num)
  have hidx : (k.tmod 8).toNat < grad3.length := by
    have : grad3.length = 8 := by decide
    omega
  refine ⟨grad3.get ⟨_, hidx⟩, ?_⟩
  rw [hg]
  exact List.get?_eq_get hidx

/-- Range bound for a single octave: on any well-formed state, `noise2D`
stays in [-1, 1]. -/
lemma noise2D_abs_le_one {st : PerlinState} (h : Valid st) (x y : ℚ) :
    |noise2D st x y| ≤ 1 := by
  obtain ⟨g00, e00, b00x, b00y⟩ := valid_gradPair h
    (permAt st (permAt st (Int.floor x % 256) + Int.floor y % 256))
  obtain ⟨g01, e01, b01x, b01y⟩ := valid_gradPair h
    (permAt st (permAt st (Int.floor x % 256) + Int.floor y % 256 + 1))
  obtain ⟨g10, e10, b10x, b10y⟩ := valid_gradPair h
    (permAt st (permAt st (Int.floor x % 256 + 1) + Int.floor y % 256))
  obtain ⟨g11, e11, b11x, b11y⟩ := valid_gradPair h
    (permAt st (permAt st (Int.floor x % 256 + 1) + Int.floor y % 256 + 1))
  have hx0 : 0 ≤ x - (Int.floor x : ℚ) := sub_nonneg.mpr (Int.floor_le x)
  have hx1 : x - (Int.floor x : ℚ) ≤ 1 := by
    have := Int.lt_floor_add_one x
    linarith
  have hy0 : 0 ≤ y - (Int.floor y : ℚ) := sub_nonneg.mpr (Int.floor_le y)
  have hy1 : y - (Int.floor y : ℚ) ≤ 1 := by
    have := Int.lt_floor_add_one y
    linarith
  simp only [noise2D, grad]
  rw [e00, e01, e10, e11]
  exact bilerp_abs_le_one b00x b00y b01x b01y b10x b10y b11x b11y hx0 hx1 hy0 hy1

/-! ### The Fisher-Yates loop preserves permutation-ness (for nonnegative
working seeds, where every pick index is a valid position) -/

lemma permMap_initP : PermMap initP := by
  constructor
  · intro j hj
    unfold initP
    rw [if_neg]
    omega
  · intro j h0 h1
    exact ⟨j, by unfold initP; rw [if_pos ⟨h0, h1⟩], h0, h1⟩
  · intro j1 j2 k e1 e2
    unfold initP at e1 e2
    by_cases c1 : 0 ≤ j1 ∧ j1 < 256
    · rw [if_pos c1] at e1
      by_cases c2 : 0 ≤ j2 ∧ j2 < 256
      · rw [if_pos c2] at e2
        have u1 := Option.some.inj e1
        have u2 := Option.some.inj e2
        omega
      · rw [if_neg c2] at e2
        exact absurd e2 (by simp)
    · rw [if_neg c1] at e1
      exact absurd e1 (by simp)
  · intro k h0 h1
    exact ⟨k, by unfold initP; rw [if_pos ⟨h0, h1⟩]⟩

/-- Pointwise description of the two sequential assignments of the swap
in the Fisher-Yates loop. -/
lemma swap_apply (p : ℤ → Option ℤ) (i r j : ℤ) :
    Function.update (Function.update p i (p r)) r (p i) j =
      if j = r then p i else if j = i then p r else p j := by
  rw [Function.update_apply, Function.update_apply]

/-- Swapping two in-range positions preserves `PermMap`. -/
lemma permMap_swap {p : ℤ → Option ℤ} (hp : PermMap p) {i r : ℤ}
    (hi0 : 0 ≤ i) (hi1 : i < 256) (hr0 : 0 ≤ r) (hr1 : r < 256) :
    PermMap (Function.update (Function.update p i (p r)) r (p i)) := by
  have E : ∀ j : ℤ, (if j = r then p i else if j = i then p r else p j) =
      p (if j = r then i else if j = i then r else j) := by
    intro j
    by_cases c1 : j = r
    · simp [c1]
    · by_cases c2 : j = i
      · have c3 : ¬(i = r) := by omega
        simp [c1, c2, c3]
      · simp [c1, c2]
  constructor
  · intro j hj
    rw [swap_apply, if_neg (by omega), if_neg (by omega)]
    exact hp.outside j hj
  · intro j h0 h1
    rw [swap_apply]
    by_cases c1 : j = r
    · rw [if_pos c1]
      exact hp.entry i hi0 hi1
    · rw [if_neg c1]
      by_cases c2 : j = i
      · rw [if_pos c2]
        exact hp.entry r hr0 hr1
      · rw [if_neg c2]
        exact hp.entry j h0 h1
  · intro j1 j2 k e1 e2
    rw [swap_apply, E j1] at e1
    rw [swap_apply, E j2] at e2
    have key := hp.inj _ _ _ e1 e2
    split_ifs at key <;> omega
  · intro k h0 h1
    obtain ⟨j, hj⟩ := hp.surj k h0 h1
    refine ⟨if j = i then r else if j = r then i else j, ?_⟩
    rw [swap_apply]
    by_cases c1 : j = i
    · rw [if_pos c1, if_pos rfl, ← c1]
      exact hj
    · rw [if_neg c1]
      by_cases c2 : j = r
      · have hir : ¬(i = r) := by omega
        rw [if_pos c2, if_neg hir, if_pos rfl, ← c2]
        exact hj
      · rw [if_neg c2, if_neg c2, if_neg c1]
        exact hj

lemma shuffleStep_fst (sp : ℤ × (ℤ → Option ℤ)) (i : ℤ) :
    (shuffleStep sp i).1 = (sp.1 * 16807).tmod 2147483647 := rfl

lemma shuffleStep_snd (sp : ℤ × (ℤ → Option ℤ)) (i : ℤ) :
    (shuffleStep sp i).2 =
      Function.update
        (Function.update sp.2 i (sp.2 (pickIndex ((sp.1 * 16807).tmod 2147483647) i)))
        (pickIndex ((sp.1 * 16807).tmod 2147483647) i) (sp.2 i) := rfl

/-- For a working seed in [0, 2147483647), the pick index at loop
position `i ≥ 0` is a valid position in [0, i]. -/
lemma pickIndex_bounds {s i : ℤ} (h0 : 0 ≤ s) (h1 : s < 2147483647)
    (hi : 0 ≤ i) : 0 ≤ pickIndex s i ∧ pickIndex s i ≤ i := by
  have hs0 : (0:ℚ) ≤ (s : ℚ) := by exact_mod_cast h0
  have hi0 : (0:ℚ) ≤ (i : ℚ) := by exact_mod_cast hi
  constructor
  · exact Int.floor_nonneg.mpr (by positivity)
  · have hfrac : (s : ℚ) / 2147483647 < 1 := by
      rw [div_lt_one (by norm_num)]
      exact_mod_cast h1
    have hmul : ((s : ℚ) / 2147483647) * ((i : ℚ) + 1) < (i : ℚ) + 1 := by
      nlinarith [div_nonneg hs0 (by norm_num : (0:ℚ) ≤ 2147483647)]
    have : pickIndex s i < i + 1 := by
      apply Int.floor_lt.mpr
      push_cast
      exact hmul
    omega

lemma shuffleStep_inv {sp : ℤ × (ℤ → Option ℤ)} (hs : 0 ≤ sp.1)
    (hp : PermMap sp.2) {i : ℤ} (hi1 : 1 ≤ i) (hi2 : i ≤ 255) :
    0 ≤ (shuffleStep sp i).1 ∧ PermMap (shuffleStep sp i).2 := by
  have hs0 : 0 ≤ (sp.1 * 16807).tmod 2147483647 :=
    Int.tmod_nonneg 2147483647 (by positivity)
  have hsM : (sp.1 * 16807).tmod 2147483647 < 2147483647 :=
    Int.tmod_lt_of_pos _ (by norm_num)
  have hr := pickIndex_bounds hs0 hsM (by omega : (0:ℤ) ≤ i)
  refine ⟨by rw [shuffleStep_fst]; exact hs0, ?_⟩
  rw [shuffleStep_snd]
  exact permMap_swap hp (by omega) (by omega) hr.1 (by omega)

lemma foldl_shuffle_inv (l : List ℤ) (hl : ∀ i ∈ l, 1 ≤ i ∧ i ≤ 255) :
    ∀ sp : ℤ × (ℤ → Option ℤ), 0 ≤ sp.1 → PermMap sp.2 →
      0 ≤ (l.foldl shuffleStep sp).1 ∧ PermMap (l.foldl shuffleStep sp).2 := by
  induction l with
  | nil => exact fun sp h1 h2 => ⟨h1, h2⟩
  | cons a t ih =>
    intro sp h1 h2
    have ha := hl a (List.mem_cons_self a t)
    have step := shuffleStep_inv h1 h2 ha.1 ha.2
    rw [List.foldl_cons]
    exact ih (fun i hi => hl i (List.mem_cons_of_mem a hi)) _ step.1 step.2

lemma downIdx_bounds : ∀ i ∈ downIdx, 1 ≤ i ∧ i ≤ 255 := by
  intro i hi
  unfold downIdx at hi
  rw [List.mem_map] at hi
  obtain ⟨k, hk, rfl⟩ := hi
  rw [List.mem_range] at hk
  omega

/-! ### Nonnegative seeds stay nonnegative through preprocessing -/

lemma toInt32_small {n : ℤ} (h0 : 0 ≤ n) (h1 : n < 2147483648) :
    toInt32 n = n := by
  unfold toInt32
  rw [Int.emod_eq_of_lt h0 (by omega)]
  exact if_pos h1

lemma jsShl8_small {a : ℤ} (h0 : 0 ≤ a) (h1 : a < 256) :
    jsShl8 a = a * 256 := by
  unfold jsShl8
  rw [toInt32_small h0 (by omega), toInt32_small (by positivity) (by omega)]

lemma jsOr_nonneg {a b : ℤ} (ha0 : 0 ≤ a) (ha1 : a < 2147483648)
    (hb0 : 0 ≤ b) (hb1 : b < 2147483648) : 0 ≤ jsOr a b := by
  have ea : toUInt32 a = a.toNat := by
    unfold toUInt32
    rw [Int.emod_eq_of_lt ha0 (by omega)]
  have eb : toUInt32 b = b.toNat := by
    unfold toUInt32
    rw [Int.emod_eq_of_lt hb0 (by omega)]
  have p31 : (2:ℕ) ^ 31 = 2147483648 := by norm_num
  have hx : a.toNat < 2 ^ 31 := by rw [p31]; omega
  have hy : b.toNat < 2 ^ 31 := by rw [p31]; omega
  have hlor := Nat.or_lt_two_pow hx hy
  rw [p31] at hlor
  unfold jsOr
  rw [ea, eb, toInt32_small (by omega) (by omega)]
  omega

lemma preprocessSeed_nonneg {v : ℚ} (hv : 0 ≤ v) : 0 ≤ preprocessSeed v := by
  simp only [preprocessSeed]
  have hw0 : 0 ≤ Int.floor (if 0 < v ∧ v < 1 then v * 65536 else v) := by
    apply Int.floor_nonneg.mpr
    split
    · positivity
    · exact hv
  set w := Int.floor (if 0 < v ∧ v < 1 then v * 65536 else v) with hw
  split
  · rename_i hcase
    rw [jsShl8_small hw0 (by omega)]
    exact jsOr_nonneg hw0 (by omega) (by positivity) (by omega)
  · exact hw0

lemma shuffle_permMap {s0 : ℤ} (h : 0 ≤ s0) : PermMap (shuffle s0).2 := by
  unfold shuffle
  exact (foldl_shuffle_inv downIdx downIdx_bounds (s0, initP) h permMap_initP).2

/-- A nonnegative seed produces a well-formed table state. -/
lemma seed_valid {v : ℚ} (hv : 0 ≤ v) : Valid (seedTables v) := by
  have hp := shuffle_permMap (preprocessSeed_nonneg hv)
  constructor
  · intro i h0 h1
    simp only [seedTables]
    by_cases c : 0 ≤ i ∧ i < 256
    · rw [if_pos c]
      exact hp.entry i c.1 c.2
    · rw [if_neg c, if_pos (by omega)]
      exact hp.entry (i - 256) (by omega) (by omega)
  · intro i h0 h1
    simp only [seedTables]
    rw [if_neg (by omega), if_pos (by omega), if_pos (by omega : 0 ≤ i ∧ i < 256)]
    have : i + 256 - 256 = i := by omega
    rw [this]
  · intro i h0 h1
    simp only [seedTables]
    by_cases c : 0 ≤ i ∧ i < 256
    · rw [if_pos c, if_pos c]
    · rw [if_neg c, if_neg c, if_pos (by omega), if_pos (by omega)]

/-! ### Relating `noise2D` to the reference description (claim C1) -/

/-- On an in-range hash, `grad` is the plain dot product against the
gradient stored at that hash. -/
lemma grad_eq_of_range {st : PerlinState} {hash : ℤ} (h0 : 0 ≤ hash)
    (h1 : hash < 256) (x y : ℚ) :
    grad st hash x y = (((st.gradP hash).getD (0, 0)).1 : ℚ) * x +
      (((st.gradP hash).getD (0, 0)).2 : ℚ) * y := by
  unfold grad
  rw [Int.emod_eq_of_lt h0 h1]

lemma specShuffleStep_eq {sp : ℤ × (ℤ → Option ℤ)} (h : 0 ≤ sp.1) (i : ℤ) :
    shuffleStep sp i = specShuffleStep sp i := by
  unfold shuffleStep specShuffleStep
  rw [Int.tmod_eq_emod (by positivity) (by norm_num)]

lemma foldl_spec_eq (l : List ℤ) :
    ∀ sp : ℤ × (ℤ → Option ℤ), 0 ≤ sp.1 →
      l.foldl shuffleStep sp = l.foldl specShuffleStep sp := by
  induction l with
  | nil => intro sp _; rw [List.foldl_nil, List.foldl_nil]
  | cons a t ih =>
    intro sp h
    have e1 : shuffleStep sp a = specShuffleStep sp a := specShuffleStep_eq h a
    have h2 : 0 ≤ (shuffleStep sp a).1 := by
      rw [shuffleStep_fst]
      exact Int.tmod_nonneg _ (by positivity)
    rw [List.foldl_cons, List.foldl_cons, ← e1]
    exact ih _ h2

/-! ### The octave loop of `perlin2D` -/

lemma fade_zero : fade 0 = 0 := by
  unfold fade
  norm_num

lemma lerp_zero (a b : ℚ) : lerp a b 0 = a := by
  unfold lerp
  ring

lemma grad_zero (st : PerlinState) (hash : ℤ) : grad st hash 0 0 = 0 := by
  simp only [grad]
  ring

/-- Loop invariant of `perlin2D` for nonnegative persistence: the running
total is bounded by the running normalization sum, the amplitude stays
nonnegative, and after at least one octave the normalization sum is at
least 1. -/
lemma octaveIter_bound {st : PerlinState} (h : Valid st) (x y lac : ℚ)
    {pers : ℚ} (hp : 0 ≤ pers) (n : ℕ) :
    |(octaveIter st x y pers lac n).1| ≤ (octaveIter st x y pers lac n).2.2.2
    ∧ 0 ≤ (octaveIter st x y pers lac n).2.2.1
    ∧ 0 ≤ (octaveIter st x y pers lac n).2.2.2
    ∧ (1 ≤ n → 1 ≤ (octaveIter st x y pers lac n).2.2.2) := by
  induction n with
  | zero =>
    refine ⟨?_, ?_, ?_, ?_⟩ <;> simp [octaveIter]
  | succ m ih =>
    obtain ⟨ih1, ih2, ih3, ih4⟩ := ih
    have hnoise := noise2D_abs_le_one h
      (x * (octaveIter st x y pers lac m).2.1) (y * (octaveIter st x y pers lac m).2.1)
    have step1 : octaveIter st x y pers lac (m + 1) =
        octaveStep st x y pers lac (octaveIter st x y pers lac m) := rfl
    rw [step1]
    simp only [octaveStep]
    refine ⟨?_, ?_, ?_, ?_⟩
    · have habs : |(octaveIter st x y pers lac m).1 +
          noise2D st (x * (octaveIter st x y pers lac m).2.1)
            (y * (octaveIter st x y pers lac m).2.1) * (octaveIter st x y pers lac m).2.2.1|
          ≤ |(octaveIter st x y pers lac m).1| +
            |noise2D st (x * (octaveIter st x y pers lac m).2.1)
              (y * (octaveIter st x y pers lac m).2.1)| * |(octaveIter st x y pers lac m).2.2.1| := by
        calc _ ≤ _ := abs_add _ _
        _ = _ := by rw [abs_mul]
      have hamp : |(octaveIter st x y pers lac m).2.2.1| = (octaveIter st x y pers lac m).2.2.1 :=
        abs_of_nonneg ih2
      rw [hamp] at habs
      have : |noise2D st (x * (octaveIter st x y pers lac m).2.1)
          (y * (octaveIter st x y pers lac m).2.1)| * (octaveIter st x y pers lac m).2.2.1
          ≤ (octaveIter st x y pers lac m).2.2.1 := by
        nlinarith [abs_nonneg (noise2D st (x * (octaveIter st x y pers lac m).2.1)
          (y * (octaveIter st x y pers lac m).2.1))]
      linarith
    · exact mul_nonneg ih2 hp
    · linarith
    · intro _
      cases m with
      | zero => simp [octaveIter]
      | succ k =>
        have := ih4 (by omega)
        linarith

lemma seedTables_perm_lo (v : ℚ) {i : ℤ} (h0 : 0 ≤ i) (h1 : i < 256) :
    (seedTables v).perm i = (shuffle (preprocessSeed v)).2 i := by
  simp only [seedTables]
  rw [if_pos ⟨h0, h1⟩]

/-! ## Claim theorems -/

/-- C1: for every input, `noise2D` (on a well-formed state) agrees with
the reference single-octave Perlin definition transcribed from the
specification: floor-and-mask cell, quintic fade
`6 t^5 - 15 t^4 + 10 t^3`, corner hashes by two composed
permutation-table lookups, gradients dotted against the corner offset
vectors (1 subtracted for far corners), two nested linear
interpolations with the fade weights. -/
theorem C1_noise2D_matches_reference {st : PerlinState} (h : Valid st)
    (x y : ℚ) : noise2D st x y = specNoise2D st x y := by
  have hX0 : 0 ≤ Int.floor x % 256 := Int.emod_nonneg _ (by norm_num)
  have hX1 : Int.floor x % 256 < 256 := Int.emod_lt_of_pos _ (by norm_num)
  have hY0 : 0 ≤ Int.floor y % 256 := Int.emod_nonneg _ (by norm_num)
  have hY1 : Int.floor y % 256 < 256 := Int.emod_lt_of_pos _ (by norm_num)
  have hpX := valid_permAt h hX0 (by omega)
  have hpX1 := valid_permAt h (by omega : (0:ℤ) ≤ Int.floor x % 256 + 1) (by omega)
  have h00 := valid_permAt h
    (by omega : (0:ℤ) ≤ permAt st (Int.floor x % 256) + Int.floor y % 256) (by omega)
  have h01 := valid_permAt h
    (by omega : (0:ℤ) ≤ permAt st (Int.floor x % 256) + Int.floor y % 256 + 1) (by omega)
  have h10 := valid_permAt h
    (by omega : (0:ℤ) ≤ permAt st (Int.floor x % 256 + 1) + Int.floor y % 256) (by omega)
  have h11 := valid_permAt h
    (by omega : (0:ℤ) ≤ permAt st (Int.floor x % 256 + 1) + Int.floor y % 256 + 1) (by omega)
  simp only [noise2D, specNoise2D]
  rw [grad_eq_of_range h00.1 h00.2, grad_eq_of_range h01.1 h01.2,
    grad_eq_of_range h10.1 h10.2, grad_eq_of_range h11.1 h11.2]
  unfold lerp fade
  ring

/-- Witness for C1 at the concrete seed 12345 and point (1/2, 1/2). -/
theorem C1_noise2D_matches_reference_witness :
    noise2D (seedTables 12345) (1/2) (1/2) = specNoise2D (seedTables 12345) (1/2) (1/2) :=
  C1_noise2D_matches_reference (seed_valid (by norm_num)) (1/2) (1/2)

/-- C2 (amended): for every nonnegative seed value, `seed` builds exactly
the tables the specification describes — the claim's description is
accurate once `mod` is taken as the nonnegative remainder, which agrees
with the code's truncated `%` precisely when the working seed never goes
negative. -/
theorem C2_seed_matches_spec_of_nonneg (v : ℚ) (hv : 0 ≤ v) :
    seedTables v = specSeedTables v := by
  have hfold : downIdx.foldl shuffleStep (preprocessSeed v, initP) =
      downIdx.foldl specShuffleStep (preprocessSeed v, initP) :=
    foldl_spec_eq downIdx (preprocessSeed v, initP) (preprocessSeed_nonneg hv)
  have hpre : ∀ w : ℚ, specPreprocess w = preprocessSeed w := fun _ => rfl
  have hp2 : (shuffle (preprocessSeed v)).2 = (specShuffle (preprocessSeed v)).2 := by
    unfold shuffle specShuffle
    exact congrArg Prod.snd hfold
  unfold seedTables specSeedTables
  rw [hpre, hp2]

/-- Witness for C2 at the concrete seed 12345. -/
theorem C2_seed_matches_spec_witness :
    seedTables 12345 = specSeedTables 12345 :=
  C2_seed_matches_spec_of_nonneg 12345 (by norm_num)

/-- C3: determinism and purity.  `seed` with equal seed values produces
equal states whatever the prior states were, and sampling is a pure
function of the state: `noise2D` and `perlin2D` return equal values on
the two identically-seeded states (and, being functions, never modify
the tables). -/
theorem C3_determinism_and_purity (v : ℚ) (stA stB : PerlinState)
    (x y : ℚ) (oct : ℕ) (pers lac : ℚ) :
    seed v stA = seed v stB
    ∧ noise2D (seed v stA) x y = noise2D (seed v stB) x y
    ∧ perlin2D (seed v stA) x y oct pers lac = perlin2D (seed v stB) x y oct pers lac :=
  ⟨rfl, rfl, rfl⟩

/-- C4: on a well-formed state, `noise2D` always lies in [-1, 1]. -/
theorem C4_noise2D_range {st : PerlinState} (h : Valid st) (x y : ℚ) :
    |noise2D st x y| ≤ 1 :=
  noise2D_abs_le_one h x y

/-- Witness for C4 at the concrete seed 12345 and point (1/2, 1/2). -/
theorem C4_noise2D_range_witness :
    |noise2D (seedTables 12345) (1/2) (1/2)| ≤ 1 :=
  C4_noise2D_range (seed_valid (by norm_num)) (1/2) (1/2)

/-- C5 (amended): `perlin2D` returns total / (amplitude sum), and this
stays in [-1, 1] for at least one octave and NONNEGATIVE persistence
(any lacunarity).  The unrestricted claim is refuted by
`C5_perlin2D_escapes_range`. -/
theorem C5_fractal_range_of_nonneg_persistence {st : PerlinState}
    (h : Valid st) (x y lac : ℚ) {pers : ℚ} (hp : 0 ≤ pers) {oct : ℕ}
    (ho : 1 ≤ oct) : |perlin2D st x y oct pers lac| ≤ 1 := by
  obtain ⟨h1, _, h3, h4⟩ := octaveIter_bound h x y lac hp oct
  have hm := h4 ho
  simp only [perlin2D]
  rw [abs_div, abs_of_nonneg h3, div_le_one (by linarith)]
  linarith

/-- Witness for C5 in the spec's concrete scenario: seed 12345,
4 octaves, persistence 1/2, lacunarity 2, point (1/2, 1/2). -/
theorem C5_fractal_range_witness :
    |perlin2D (seedTables 12345) (1/2) (1/2) 4 (1/2) 2| ≤ 1 :=
  C5_fractal_range_of_nonneg_persistence (seed_valid (by norm_num))
    (1/2) (1/2) 2 (by norm_num) (by norm_num)

/-- C7: a single-octave fractal sample equals the plain sample; the
persistence and lacunarity arguments do not influence it. -/
theorem C7_single_octave_equivalence (st : PerlinState) (x y pers lac : ℚ) :
    perlin2D st x y 1 pers lac = noise2D st x y := by
  simp [perlin2D, octaveIter, octaveStep]

/-- C8: reseeding leaves no residual state: seeding A, then B, then A
again restores exactly the state of the first seeding (the final loop of
`seed` overwrites every slot of both tables), hence all samples agree. -/
theorem C8_reseed_independence (A B : ℚ) (st : PerlinState) :
    seed A (seed B (seed A st)) = seed A st
    ∧ ∀ x y : ℚ, noise2D (seed A (seed B (seed A st))) x y = noise2D (seed A st) x y :=
  ⟨rfl, fun _ _ => rfl⟩

/-- C9: with zero octaves the loop accumulates nothing and `perlin2D`
reaches the division 0 / 0 (no error is raised; in this rational model
the division by zero denotes 0, while JavaScript produces NaN). -/
theorem C9_zero_octaves_divides_zero_by_zero (st : PerlinState) (x y pers lac : ℚ) :
    octaveIter st x y pers lac 0 = (0, 1, 1, 0)
    ∧ perlin2D st x y 0 pers lac = 0 / 0 :=
  ⟨rfl, rfl⟩

/-- In the total model, the interpolated value at integer coordinates is
0 whatever the tables hold: both fade weights vanish and the selected
corner is a gradient dotted with the zero vector. -/
lemma noise2D_integer_zero (st : PerlinState) (xi yi : ℤ) :
    noise2D st (xi : ℚ) (yi : ℚ) = 0 := by
  simp [noise2D, Int.floor_intCast, sub_self, fade_zero, lerp_zero, grad_zero]

/-- On a well-formed state every table lookup of `noise2D` resolves, so
the error-propagating `noise2DChecked` returns `noise2D`'s value. -/
lemma noise2DChecked_eq_some {st : PerlinState} (h : Valid st) (x y : ℚ) :
    noise2DChecked st x y = some (noise2D st x y) := by
  have hX0 : 0 ≤ Int.floor x % 256 := Int.emod_nonneg _ (by norm_num)
  have hX1 : Int.floor x % 256 < 256 := Int.emod_lt_of_pos _ (by norm_num)
  obtain ⟨kX, hkX, hkX0, hkXlt⟩ := h.perm_mem (Int.floor x % 256) hX0 (by omega)
  obtain ⟨kX1, hkX1, hkX10, hkX1lt⟩ :=
    h.perm_mem (Int.floor x % 256 + 1) (by omega) (by omega)
  obtain ⟨g00, hg00⟩ := valid_gradP_some h ((st.perm (kX + Int.floor y % 256)).getD 0)
  obtain ⟨g01, hg01⟩ := valid_gradP_some h ((st.perm (kX + Int.floor y % 256 + 1)).getD 0)
  obtain ⟨g10, hg10⟩ := valid_gradP_some h ((st.perm (kX1 + Int.floor y % 256)).getD 0)
  obtain ⟨g11, hg11⟩ := valid_gradP_some h ((st.perm (kX1 + Int.floor y % 256 + 1)).getD 0)
  simp only [noise2DChecked, noise2D, grad, permAt, hkX, hkX1, Option.map_some',
    Option.some_bind, Option.getD_some, hg00, hg01, hg10, hg11]

/-- C10 (amended): on every well-formed state — in particular after any
nonnegative seed — `noise2D` at integer coordinates returns (without
throwing) exactly 0: both fractional offsets are 0, both fade weights
are 0, and the selected corner contribution is a gradient dotted with the
zero offset vector.  The unrestricted claim ("regardless of the seed") is
refuted by `C10_integer_point_error_at_neg_seed`: a negative seed can
corrupt the tables so that `noise2D` throws at an integer point instead
of returning 0. -/
theorem C10_integer_coordinates_vanish_on_wellformed {st : PerlinState}
    (h : Valid st) (xi yi : ℤ) :
    noise2DChecked st (xi : ℚ) (yi : ℚ) = some 0 := by
  rw [noise2DChecked_eq_some h, noise2D_integer_zero]

/-- Witness for C10 at the concrete seed 12345 and integer point (3, -2). -/
theorem C10_integer_coordinates_witness :
    noise2DChecked (seedTables 12345) ((3 : ℤ) : ℚ) ((-2 : ℤ) : ℚ) = some 0 :=
  C10_integer_coordinates_vanish_on_wellformed (seed_valid (by norm_num)) 3 (-2)

section DecidableCounterexamples

unseal Rat.mul Rat.add Rat.sub Rat.inv Rat.ofScientific

set_option maxRecDepth 40000

/-- C2 counterexample: at the negative seed -2 the code's tables differ
from the specification's description (the code's truncated `%` drives the
pick index negative, so the swap hits out-of-bounds keys). -/
theorem C2_seed_deviates_from_spec_at_neg_two :
    seedTables (-2) ≠ specSeedTables (-2) := by
  have hne : (seedTables (-2)).perm 255 ≠ (specSeedTables (-2)).perm 255 := by decide
  exact fun hEq => hne (congrArg (fun st => st.perm 255) hEq)

/-- C5 counterexample: with persistence -9/10 (and lacunarity 0,
2 octaves, seed 12345) the normalized fractal sample is -5/4, outside
[-1, 1]: the claim fails for negative persistence. -/
theorem C5_perlin2D_escapes_range :
    1 < |perlin2D (seedTables 12345) (1/2) (1/2) 2 (-(9/10)) 0| := by decide

/-- C6 counterexample: after `seed(-2)` the permutation slot 255 is
undefined (the corrupting swap moved it to key -1), so the table does
not hold 512 integers in [0, 255]. -/
theorem C6_negative_seed_corrupts_table :
    (seedTables (-2)).perm 255 = none := by decide

/-- C10 counterexample: after `seed(-2)`, at the integer coordinates
(0, 5) the corner index bb = perm[1] + 5 + 1 = 8 hashes to
perm[8] = 23, and gradP[23] is undefined, so the source's `noise2D`
throws a TypeError (`g[0]` of undefined) instead of returning 0: the
claim fails for negative seeds. -/
theorem C10_integer_point_error_at_neg_seed :
    noise2DChecked (seedTables (-2)) 0 5 = none := by decide

end DecidableCounterexamples

/-- C6 (amended): after `seed(v)` for any NONNEGATIVE seed value, the
permutation table holds integers in [0, 255] at all 512 slots, slot i and
slot i+256 coincide, the first 256 entries are a permutation of 0..255
(pairwise distinct and covering every value), and the gradient table is
obtained by the same duplication with `gradP[i] = grad3[perm[i] % 8]`. -/
theorem C6_tables_wellformed_of_nonneg (v : ℚ) (hv : 0 ≤ v) :
    (∀ i : ℤ, 0 ≤ i → i < 512 → ∃ k, (seedTables v).perm i = some k ∧ 0 ≤ k ∧ k < 256)
    ∧ (∀ i : ℤ, 0 ≤ i → i < 256 → (seedTables v).perm (i + 256) = (seedTables v).perm i)
    ∧ (∀ i j k : ℤ, 0 ≤ i → i < 256 → 0 ≤ j → j < 256 →
        (seedTables v).perm i = some k → (seedTables v).perm j = some k → i = j)
    ∧ (∀ k : ℤ, 0 ≤ k → k < 256 → ∃ i, 0 ≤ i ∧ i < 256 ∧ (seedTables v).perm i = some k)
    ∧ (∀ i : ℤ, 0 ≤ i → i < 256 → (seedTables v).gradP (i + 256) = (seedTables v).gradP i)
    ∧ (∀ i : ℤ, 0 ≤ i → i < 512 →
        (seedTables v).gradP i = ((seedTables v).perm i).bind (fun k => grad3.get? (k.tmod 8).toNat)) := by
  have hval := seed_valid hv
  have hp := shuffle_permMap (preprocessSeed_nonneg hv)
  refine ⟨hval.perm_mem, hval.dup, ?_, ?_, ?_, hval.grad_rel⟩
  · intro i j k hi0 hi1 hj0 hj1 ei ej
    rw [seedTables_perm_lo v hi0 hi1] at ei
    rw [seedTables_perm_lo v hj0 hj1] at ej
    exact hp.inj _ _ _ ei ej
  · intro k hk0 hk1
    obtain ⟨j, hj⟩ := hp.surj k hk0 hk1
    have hjr : 0 ≤ j ∧ j < 256 := by
      by_contra hc
      rw [hp.outside j (by omega)] at hj
      exact absurd hj (by simp)
    refine ⟨j, hjr.1, hjr.2, ?_⟩
    rw [seedTables_perm_lo v hjr.1 hjr.2]
    exact hj
  · intro i h0 h1
    rw [hval.grad_rel (i + 256) (by omega) (by omega),
      hval.grad_rel i (by omega) (by omega), hval.dup i h0 h1]

/-- Witness for C6 at the concrete seed 12345. -/
theorem C6_tables_wellformed_witness :
    (∀ i : ℤ, 0 ≤ i → i < 512 → ∃ k, (seedTables 12345).perm i = some k ∧ 0 ≤ k ∧ k < 256)
    ∧ (∀ i : ℤ, 0 ≤ i → i < 256 → (seedTables 12345).perm (i + 256) = (seedTables 12345).perm i)
    ∧ (∀ i j k : ℤ, 0 ≤ i → i < 256 → 0 ≤ j → j < 256 →
        (seedTables 12345).perm i = some k → (seedTables 12345).perm j = some k → i = j)
    ∧ (∀ k : ℤ, 0 ≤ k → k < 256 → ∃ i, 0 ≤ i ∧ i < 256 ∧ (seedTables 12345).perm i = some k)
    ∧ (∀ i : ℤ, 0 ≤ i → i < 256 → (seedTables 12345).gradP (i + 256) = (seedTables 12345).gradP i)
    ∧ (∀ i : ℤ, 0 ≤ i → i < 512 →
        (seedTables 12345).gradP i = ((seedTables 12345).perm i).bind (fun k => grad3.get? (k.tmod 8).toNat)) :=
  C6_tables_wellformed_of_nonneg 12345 (by norm_num)

end Perlin
